import Mathlib

/-!
Verification of the symbol-resolution heuristics of the XLSX enrichment
scripts.  Python strings are modelled as `List Char`; Python dict access
`d.get(k)` / `d.get(k, "")` is modelled with `Option` fields, or with plain
strings where the scripts only ever test truthiness (a missing key, a `None`
value and `""` are then indistinguishable).  Floats that the scripts only
add and compare (score weights, confidence tiers) are modelled as exact
rationals.
-/

/-- Python strings in this development are lists of characters. -/
abbrev Str := List Char

/-- ASCII whitespace recognised by Python's `str.strip()`. -/
def isWsp (c : Char) : Bool :=
  c = ' ' || c = '\t' || c = '\n' || c = '\r' || c = '\x0b' || c = '\x0c'

/-- `str.strip()`: remove leading and trailing whitespace. -/
def pyStrip (s : Str) : Str :=
  ((s.dropWhile isWsp).reverse.dropWhile isWsp).reverse

/-- `str.upper()` (ASCII fragment, which is all the scripts use). -/
def pyUpper (s : Str) : Str := s.map Char.toUpper

/-- `hay.startswith(needle)` on lists: `needle` is an initial segment of `hay`. -/
def takesLead (needle hay : Str) : Bool :=
  match needle, hay with
  | [], _ => true
  | _ :: _, [] => false
  | a :: as_, b :: bs => a = b && takesLead as_ bs

/-- Python's `needle in hay` (contiguous substring test). -/
def containsSub (needle hay : Str) : Bool :=
  takesLead needle hay ||
    match hay with
    | [] => false
    | _ :: t => containsSub needle t

/-- `s.endswith(suffix)`. -/
def endsWithL (suffix s : Str) : Bool :=
  takesLead suffix.reverse s.reverse

/-- `any(s.endswith(suf) for suf in sufs)`. -/
def endsWithAnyOf (sufs : List Str) (s : Str) : Bool :=
  sufs.any (fun suf => endsWithL suf s)

/-- `KNOWN_EX_SUFFIXES` from `fill_yf_sector.py` (a set that is only ever
iterated with `endswith`, so list order is irrelevant). -/
def KNOWN_EX_SUFFIXES : List Str :=
  [".TO".toList, ".V".toList, ".CN".toList, ".AX".toList, ".L".toList,
   ".SW".toList, ".PA".toList, ".BR".toList, ".BE".toList, ".DE".toList,
   ".F".toList, ".HM".toList, ".MU".toList, ".SG".toList, ".ST".toList,
   ".HE".toList, ".MI".toList, ".AS".toList, ".MC".toList, ".WA".toList,
   ".VI".toList, ".IR".toList, ".IS".toList, ".HK".toList, ".KS".toList,
   ".KQ".toList, ".T".toList, ".TW".toList]

/-- `VALID_TICKER_CHARS = set(string.ascii_uppercase + string.digits + "._-")`. -/
def VALID_TICKER_CHARS : List Char :=
  "ABCDEFGHIJKLMNOPQRSTUVWXYZ0123456789._-".toList

/-- Membership in `VALID_TICKER_CHARS`. -/
def validChar (c : Char) : Bool := VALID_TICKER_CHARS.contains c

/-- `sanitize_symbol` from `fill_yf_sector.py`: strip, uppercase, drop one
leading `$`, heuristically discard long synthetic `X...` tokens lacking a
known exchange suffix, then keep only plausible ticker characters. -/
def sanitize_symbol (raw : Str) : Str :=
  let s := pyUpper (pyStrip raw)
  let s := if s.head? = some '$' then s.tail else s
  if s.head? = some 'X' ∧ endsWithAnyOf KNOWN_EX_SUFFIXES s = false then
    if 6 < s.length then []
    else s.filter validChar
  else s.filter validChar

/-- `[A-Z]`. -/
def isUpperAlpha (c : Char) : Bool := 'A' ≤ c && c ≤ 'Z'

/-- `[A-Z0-9]`. -/
def isUpperAlnum (c : Char) : Bool := isUpperAlpha c || ('0' ≤ c && c ≤ '9')

/-- `class_share_pat = re.compile(r"^[A-Z]+\.([A-Z0-9]{1,3})$")` as a matcher.
(`[A-Z]+` can be taken greedily: shortening it would leave a letter, not a
dot, as the next character, so no backtracking case is lost.) -/
def classSharePat (s : Str) : Bool :=
  let letters := s.takeWhile isUpperAlpha
  let rest := s.drop letters.length
  (!letters.isEmpty) &&
    match rest with
    | '.' :: tail => (!tail.isEmpty) && tail.length ≤ 3 && tail.all isUpperAlnum
    | _ => false

/-- The domestic-venue keywords tested by `map_to_yahoo_symbol`. -/
def US_EXCHANGE_KEYWORDS : List Str :=
  ["NYSE".toList, "NASDAQ".toList, "NSDQ".toList, "OTC".toList, "ARCA".toList,
   "BATS".toList, "AMEX".toList, "NYSEMKT".toList, "NMS".toList]

/-- `exchange in (None, "", "nan")` on the raw hint argument. -/
def exchangeNoneLike (exchange : Option Str) : Bool :=
  match exchange with
  | none => true
  | some e => e.isEmpty || e = "nan".toList

/-- `map_to_yahoo_symbol` from `fill_yf_sector.py`: sanitize; keep a known
native exchange suffix as-is; otherwise, for US listings (by hint keyword,
or by class-share shape when no hint), rewrite `BASE.T` to `BASE-T` when the
tail after the first dot fully matches `[A-Z0-9]{1,3}`. -/
def map_to_yahoo_symbol (symbol : Str) (exchange : Option Str) : Str :=
  let sym := sanitize_symbol symbol
  if sym.isEmpty then sym
  else if endsWithAnyOf KNOWN_EX_SUFFIXES sym then sym
  else
    let is_us :=
      match exchange with
      | some ex => US_EXCHANGE_KEYWORDS.any (fun k => containsSub k (pyUpper (pyStrip ex)))
      | none => false
    let is_us := is_us || (exchangeNoneLike exchange && classSharePat sym)
    if is_us && sym.contains '.' then
      let base := sym.takeWhile (fun c => c ≠ '.')
      let tail := sym.drop (base.length + 1)
      if (!tail.isEmpty) && tail.length ≤ 3 && tail.all isUpperAlnum then
        base ++ '-' :: tail
      else sym
    else sym

/-- One Yahoo search result as consumed by `pick_best_match` in `Symbols.py`.
The function reads every field through `q.get(k, "")`, `(q.get(k) or "")` or
truthiness tests, so a missing key, a `None` value and `""` are
indistinguishable and each field is a plain string ( `[]` = absent). -/
structure Quote where
  symbol : Str
  shortname : Str
  longname : Str
  exchDisp : Str
  exchange : Str
  quoteType : Str
deriving DecidableEq

/-- The tag compared against `str(q.get("quoteType","")).upper()`. -/
def EQUITY_TAG : Str := "EQUITY".toList

/-- The inner `score(q)` of `pick_best_match`: the additive heuristic plus
the two tie-break flags, returned as the Python tuple
`(s, exchange_ok, region_ok)`.  The callers pass `prefer_exchanges` /
`prefer_regions` already upper-cased, or `None` for an empty selection;
`None` and `[]` are both falsy, so both are modelled as `[]`. -/
def score (prefer_exchanges prefer_regions : List Str) (q : Quote) : ℚ × Bool × Bool :=
  let exch_disp := pyUpper q.exchDisp
  let exch := pyUpper q.exchange
  let exchange_ok := (!prefer_exchanges.isEmpty) &&
    (prefer_exchanges.contains exch_disp || prefer_exchanges.contains exch)
  let s1 : ℚ := if exchange_ok then 0 + 5 else 0
  let region_ok := (!prefer_regions.isEmpty) &&
    prefer_regions.any (fun pref => containsSub (pyUpper pref) (exch_disp ++ ' ' :: exch))
  let s2 := if region_ok then s1 + 3 else s1
  let s3 := if (!q.symbol.isEmpty) && !takesLead ['^'] q.symbol then s2 + 1 else s2
  let s4 := if (!q.longname.isEmpty) || !q.shortname.isEmpty then s3 + 1 else s3
  let s5 := if pyUpper q.quoteType = EQUITY_TAG then s4 + 1 else s4
  let s6 := if !exch_disp.isEmpty then s5 + 1/2 else s5
  (s6, exchange_ok, region_ok)

/-- The additive rubric exactly as the specification's §4.3 states it
(weights `+5, +3, +1, +1, +0.5, +0.25`), for comparison with `score`. -/
def claimed_rubric_score (pe pr : List Str) (q : Quote) : ℚ :=
  (if pe.contains (pyUpper q.exchDisp) || pe.contains (pyUpper q.exchange) then 5 else 0)
  + (if pr.any (fun pref => containsSub (pyUpper pref) (pyUpper q.exchDisp ++ ' ' :: pyUpper q.exchange)) then 3 else 0)
  + (if (!q.symbol.isEmpty) && !takesLead ['^'] q.symbol then 1 else 0)
  + (if pyUpper q.quoteType = EQUITY_TAG then 1 else 0)
  + (if (!q.shortname.isEmpty) || !q.longname.isEmpty then 1/2 else 0)
  + (if !(pyUpper q.exchDisp).isEmpty then 1/4 else 0)

/-- The additive rubric with the weights the code actually uses
(`+1` for a present display name, `+0.5` for a present exchange display). -/
def rubric_score (pe pr : List Str) (q : Quote) : ℚ :=
  (if pe.contains (pyUpper q.exchDisp) || pe.contains (pyUpper q.exchange) then 5 else 0)
  + (if pr.any (fun pref => containsSub (pyUpper pref) (pyUpper q.exchDisp ++ ' ' :: pyUpper q.exchange)) then 3 else 0)
  + (if (!q.symbol.isEmpty) && !takesLead ['^'] q.symbol then 1 else 0)
  + (if pyUpper q.quoteType = EQUITY_TAG then 1 else 0)
  + (if (!q.longname.isEmpty) || !q.shortname.isEmpty then 1 else 0)
  + (if !(pyUpper q.exchDisp).isEmpty then 1/2 else 0)

/-- Python compares the tuples `(s, exchange_ok, region_ok)` with
`False < True`; booleans become `0`/`1`. -/
def pyKey (t : ℚ × Bool × Bool) : ℚ × ℕ × ℕ :=
  (t.1, (if t.2.1 then 1 else 0), if t.2.2 then 1 else 0)

/-- Lexicographic `<` on the Python sort key. -/
def keyLt (a b : ℚ × ℕ × ℕ) : Prop :=
  a.1 < b.1 ∨ (a.1 = b.1 ∧ (a.2.1 < b.2.1 ∨ (a.2.1 = b.2.1 ∧ a.2.2 < b.2.2)))

instance keyLtDec (a b : ℚ × ℕ × ℕ) : Decidable (keyLt a b) := by
  unfold keyLt
  exact inferInstance

/-- Stable descending insertion: the inserted element `x` is original-earlier
than everything already in the list, so it goes before equal keys. -/
def insertDesc (key : Quote → ℚ × ℕ × ℕ) (x : Quote) : List Quote → List Quote
  | [] => [x]
  | y :: ys => if keyLt (key x) (key y) then y :: insertDesc key x ys else x :: y :: ys

/-- `sorted(l, key=key, reverse=True)`: Python's sort is stable, so the
result has non-increasing keys with equal-key elements in original order,
which is exactly what this insertion sort produces. -/
def sortDesc (key : Quote → ℚ × ℕ × ℕ) : List Quote → List Quote
  | [] => []
  | x :: xs => insertDesc key x (sortDesc key xs)

/-- The type filter of `pick_best_match` with its fallback:
`filtered = [q for q in quotes if str(q.get("quoteType","")).upper() in allow_types]`,
then `if not filtered: filtered = quotes[:]`. -/
def effectiveCandidates (quotes : List Quote) (allow_types : List Str) : List Quote :=
  let filtered := quotes.filter (fun q => allow_types.contains (pyUpper q.quoteType))
  if filtered.isEmpty then quotes else filtered

/-- `pick_best_match` from `Symbols.py`.  `ranked[0] if ranked else None`
is the head of the stably sorted list. -/
def pick_best_match (quotes : List Quote)
    (prefer_exchanges prefer_regions allow_types : List Str) : Option Quote :=
  if quotes.isEmpty then none
  else
    (sortDesc (fun q => pyKey (score prefer_exchanges prefer_regions q))
      (effectiveCandidates quotes allow_types)).head?

/-- The default `allow_types` of `pick_best_match`. -/
def DEFAULT_ALLOW_TYPES : List Str :=
  ["EQUITY".toList, "ETF".toList, "FUND".toList, "CURRENCY".toList, "INDEX".toList]

/-- The scoring configuration of one resolution run (spec §3 MatchPolicy). -/
structure MatchPolicy where
  prefer_exchanges : List Str
  prefer_regions : List Str
  allow_types : List Str
deriving DecidableEq

/-- State-passing form of a resolution call.  The Python body only builds
new lists (`[q for q in quotes ...]`, `quotes[:]`, `sorted(...)`) and never
assigns into `quotes` or into the preference lists, so the call hands back
both arguments exactly as they came in, next to the selected candidate. -/
def pick_best_match_run (quotes : List Quote) (policy : MatchPolicy) :
    Option Quote × List Quote × MatchPolicy :=
  (pick_best_match quotes policy.prefer_exchanges policy.prefer_regions
    policy.allow_types, quotes, policy)

/-- `safe_str` from `Symbols.py`: `""` for NA cells, else `str(x).strip()`. -/
def safe_str (cell : Option Str) : Str :=
  match cell with
  | none => []
  | some v => pyStrip v

/-- One tuple appended to `results` in the `Symbols.py` run loop
(row index omitted; it is only used to merge back). -/
structure RowResult where
  symbol : Str
  shortname : Str
  longname : Str
  exch_disp : Str
  qtype : Str
  conf : ℚ
deriving DecidableEq

/-- One iteration of the `Symbols.py` run loop for a row whose name cell is
`cell`, given the quotes the search returned for it: empty-query rows are
recorded with confidence `0.0` and no search; otherwise the best match is
taken and the confidence tier is `0.85` for (case-insensitive) EQUITY,
`0.75` for any other match, `0.0` for no match. -/
def process_row (cell : Option Str) (quotes : List Quote)
    (pe pr allow_types : List Str) : RowResult :=
  let company := safe_str cell
  if company.isEmpty then ⟨[], [], [], [], [], 0⟩
  else
    match pick_best_match quotes pe pr allow_types with
    | some m =>
        { symbol := m.symbol
          shortname := m.shortname
          longname := m.longname
          exch_disp := if !m.exchDisp.isEmpty then m.exchDisp else m.exchange
          qtype := m.quoteType
          conf := if pyUpper m.quoteType = EQUITY_TAG then 85/100 else 75/100 }
    | none => ⟨[], [], [], [], [], 0⟩

/-- A raised Python exception, as far as the handlers distinguish them:
an `HTTPError` carrying `getattr(e, "code", None)`, or anything else. -/
inductive PyExc where
  | http (code : Option ℤ)
  | other
deriving DecidableEq

/-- `yahoo_search` from `Symbols.py` after the request has been made.
`response` abstracts `requests.get` + `raise_for_status` + `r.json()`:
`.error` is any network error, non-2xx status or parse failure; `.ok`
carries the `"quotes"` entry (`none` = key absent, `some none` = JSON null).
The body returns `data.get("quotes", []) or []`, and the handler returns
`[]` for every exception. -/
def yahoo_search (response : Except PyExc (Option (Option (List Quote)))) : List Quote :=
  match response with
  | .error _ => []
  | .ok none => []
  | .ok (some none) => []
  | .ok (some (some qs)) => if qs.isEmpty then [] else qs

/-- The fields of a `yfinance` info dict that the scripts read.  All-`none`
stands for the empty dict `{}` (the scripts also cannot see a difference
between `{}` and a dict whose read keys are all `None`). -/
structure InfoDict where
  sector : Option Str := none
  industry : Option Str := none
  industryKey : Option Str := none
  industryDisp : Option Str := none
  shortName : Option Str := none
  longName : Option Str := none
  country : Option Str := none
  quoteType : Option Str := none
  exchange : Option Str := none
  market : Option Str := none
deriving DecidableEq

/-- `info = {}`. -/
def emptyInfoDict : InfoDict := {}

/-- Python truthiness of an optional string. -/
def optTruthy : Option Str → Bool
  | some v => !v.isEmpty
  | none => false

/-- Python `a or b` on optional strings. -/
def pyOrOpt (a b : Option Str) : Option Str :=
  if optTruthy a then a else b

/-- The `fast_info` object: `getattr(fi, "market", None)` may itself raise
(the scripts guard it with `try/except`). -/
structure FastRes where
  marketGet : Except PyExc (Option Str)

/-- The dict `cached_get_info` returns, as seen through `.get`:
the `{}` of the outer handler and a dict of six `None` values coincide. -/
structure MetaInfo where
  sector : Option Str := none
  industry : Option Str := none
  name : Option Str := none
  country : Option Str := none
  asset_type : Option Str := none
  exchange : Option Str := none
deriving DecidableEq

/-- `{}` / all-`None` metadata. -/
def emptyMeta : MetaInfo := {}

/-- `norm = lambda x: x if (x is not None and str(x).strip()) else None`. -/
def normOpt (x : Option Str) : Option Str :=
  match x with
  | some v => if (pyStrip v).isEmpty then none else some v
  | none => none

/-- Step 1 of `cached_get_info`: `t.get_info()` with its two handlers.
A non-dict result or a generic exception gives `info = {}`; a 404
`HTTPError` gives `info = {}`; any other `HTTPError` is re-raised (the
`.error` result), which only the outer handler will catch. -/
def getInfoStep (getInfoRes : Except PyExc (Option InfoDict)) : Except PyExc InfoDict :=
  match getInfoRes with
  | .ok (some d) => .ok d
  | .ok none => .ok emptyInfoDict
  | .error (.http c) =>
      if c = some 404 then .ok emptyInfoDict else .error (.http c)
  | .error .other => .ok emptyInfoDict

/-- `cached_get_info` from `fill_yf_sector.py`.  The four abstract arguments
are the outcomes of the fallible external calls: `t.get_info()` (with
`.ok none` for a non-dict result), the legacy `t.info` property,
`getattr(t, "fast_info", None)`, and the 5-day history probe (`.ok b` with
`b` = "`hist is not None and not hist.empty`").  Step 1 is the only point
that can still raise; its `.error` reaches the outer
`except Exception: return {}`, every later probe has its own
`except: pass`. -/
def cached_get_info (getInfoRes : Except PyExc (Option InfoDict))
    (legacyInfoRes : Except PyExc (Option InfoDict))
    (fi : Option FastRes) (histRes : Except PyExc Bool) : MetaInfo :=
  match getInfoStep getInfoRes with
  | .error _ => emptyMeta
  | .ok info1 =>
    let info :=
      if info1 = emptyInfoDict then
        match legacyInfoRes with
        | .ok (some d) => d
        | _ => info1
      else info1
    let sector := info.sector
    let industry := pyOrOpt (pyOrOpt info.industry info.industryKey) info.industryDisp
    let name := pyOrOpt info.shortName info.longName
    let country := info.country
    let asset_tp := info.quoteType
    let exch1 := pyOrOpt info.exchange info.market
    let exch2 :=
      match fi with
      | some f =>
          if !optTruthy exch1 then
            match f.marketGet with
            | .ok m => m
            | .error _ => exch1
          else exch1
      | none => exch1
    let anyField := optTruthy sector || optTruthy industry || optTruthy name ||
      optTruthy country || optTruthy asset_tp || optTruthy exch2
    let exch3 :=
      if !anyField then
        match histRes with
        | .ok true =>
            match fi with
            | some f =>
                if !optTruthy exch2 then
                  match f.marketGet with
                  | .ok m => m
                  | .error _ => exch2
                else exch2
            | none => exch2
        | _ => exch2
      else exch2
    { sector := normOpt sector, industry := normOpt industry,
      name := normOpt name, country := normOpt country,
      asset_type := normOpt asset_tp, exchange := normOpt exch3 }

/-- The `fast_info` probes of `cached_exists`: `getattr(fi, "last_price", None)`
and `getattr(fi, "market", None)`, each possibly raising, each tested only
with `is not None`. -/
structure FastInfoProbe where
  lastPriceGet : Except PyExc (Option Unit)
  marketGet : Except PyExc (Option Unit)

/-- `cached_exists` from `fill_yf_sector.py`: the legacy fail-open existence
check.  `tickerRes` is `yf.Ticker(...)` (raises → outer handler); the three
probes mirror `cached_get_info`'s.  Each inner `try` either returns `True`
or falls through (`some b`/`none` below); the fallthrough and the outer
handler both return `True`. -/
def cached_exists (tickerRes : Except PyExc Unit)
    (getInfoRes : Except PyExc (Option InfoDict))
    (histRes : Except PyExc Bool) (fi : Option FastInfoProbe) : Bool :=
  match tickerRes with
  | .error _ => true
  | .ok _ =>
    let step1 : Option Bool :=
      match getInfoRes with
      | .ok (some d) =>
          if optTruthy d.quoteType || optTruthy d.shortName ||
             optTruthy d.longName || optTruthy d.sector then some true else none
      | _ => none
    match step1 with
    | some b => b
    | none =>
      let step2 : Option Bool :=
        match histRes with
        | .ok true => some true
        | _ => none
      match step2 with
      | some b => b
      | none =>
        let step3 : Option Bool :=
          match fi with
          | some f =>
              match f.lastPriceGet with
              | .ok (some _) => some true
              | .ok none =>
                  match f.marketGet with
                  | .ok (some _) => some true
                  | _ => none
              | .error _ => none
          | none => none
        match step3 with
        | some b => b
        | none => true

/-- `write_df_paged` from `fill_yf_sector.py`: a DataFrame is a list of
rows; an empty frame still yields one (empty) sheet; otherwise
`pages = ceil(n / page_size)` sheets are cut with
`_df.iloc[p*page_size : min((p+1)*page_size, n)]`, i.e. drop-then-take. -/
def write_df_paged {α : Type} (df : List α) (page_size : ℕ) : List (List α) :=
  if df.length = 0 then [[]]
  else
    let pages := (df.length + page_size - 1) / page_size
    (List.range pages).map (fun p => (df.drop (p * page_size)).take page_size)

/-- `to_excel_bytes_multi` from `fill_yf_sector_4000.py`: one sheet when the
frame fits, else `math.ceil(len(df) / max_rows_per_sheet)` sheets cut the
same way. -/
def to_excel_bytes_multi {α : Type} (df : List α) (max_rows_per_sheet : ℕ) : List (List α) :=
  if df.length ≤ max_rows_per_sheet then [df]
  else
    let n_sheets := (df.length + max_rows_per_sheet - 1) / max_rows_per_sheet
    (List.range n_sheets).map (fun i => (df.drop (i * max_rows_per_sheet)).take max_rows_per_sheet)


/-- A default record for safe indexing. -/
def emptyQuote : Quote := ⟨[], [], [], [], [], []⟩

/- ### Character and string facts used by the sanitizer proofs -/

theorem valid_toNat_lt : ∀ c ∈ VALID_TICKER_CHARS, c.toNat < 97 := by decide

theorem valid_not_wsp : ∀ c ∈ VALID_TICKER_CHARS, isWsp c = false := by decide

theorem valid_mem_of_validChar {c : Char} (h : validChar c = true) :
    c ∈ VALID_TICKER_CHARS := by
  simpa [validChar, List.elem_iff] using h

theorem toUpper_fix {c : Char} (h : c.toNat < 97) : c.toUpper = c := by
  unfold Char.toUpper
  rw [if_neg]
  omega

theorem dropWhile_wsp_eq_self {l : Str} (h : ∀ c ∈ l, isWsp c = false) :
    l.dropWhile isWsp = l := by
  cases l with
  | nil => rfl
  | cons c t =>
      rw [List.dropWhile_cons, h c (List.mem_cons_self c t)]
      simp

theorem pyStrip_eq_self {l : Str} (h : ∀ c ∈ l, isWsp c = false) : pyStrip l = l := by
  unfold pyStrip
  rw [dropWhile_wsp_eq_self h, dropWhile_wsp_eq_self, List.reverse_reverse]
  intro c hc
  exact h c (List.mem_reverse.1 hc)

theorem pyUpper_eq_self {l : Str} (h : ∀ c ∈ l, validChar c = true) : pyUpper l = l := by
  unfold pyUpper
  induction l with
  | nil => rfl
  | cons c t ih =>
      rw [List.map_cons, toUpper_fix (valid_toNat_lt c (valid_mem_of_validChar (h c (List.mem_cons_self c t)))),
        ih (fun d hd => h d (List.mem_cons_of_mem c hd))]

theorem filter_valid_eq_self {l : Str} (h : ∀ c ∈ l, validChar c = true) :
    l.filter validChar = l :=
  List.filter_eq_self.mpr h

theorem sanitize_all_valid (raw : Str) : ∀ c ∈ sanitize_symbol raw, validChar c = true := by
  intro c hc
  simp only [sanitize_symbol] at hc
  repeat' split at hc
  all_goals first
    | exact absurd hc (List.not_mem_nil c)
    | exact (List.mem_filter.1 hc).2

/- ### Order facts about the Python sort key -/

theorem keyLt_irrefl (a : ℚ × ℕ × ℕ) : ¬ keyLt a a := by
  simp [keyLt]

theorem keyLt_trans {a b c : ℚ × ℕ × ℕ} (h : keyLt a b) (h' : keyLt b c) : keyLt a c := by
  obtain ⟨a1, a2, a3⟩ := a
  obtain ⟨b1, b2, b3⟩ := b
  obtain ⟨c1, c2, c3⟩ := c
  simp only [keyLt] at h h' ⊢
  rcases h with h1 | ⟨e1, h1⟩ <;> rcases h' with h2 | ⟨e2, h2⟩
  · exact Or.inl (lt_trans h1 h2)
  · exact Or.inl (by rw [← e2]; exact h1)
  · exact Or.inl (by rw [e1]; exact h2)
  · refine Or.inr ⟨e1.trans e2, ?_⟩
    rcases h1 with h1 | ⟨f1, h1⟩ <;> rcases h2 with h2 | ⟨f2, h2⟩ <;> omega

theorem keyLt_asymm {a b : ℚ × ℕ × ℕ} (h : keyLt a b) : ¬ keyLt b a :=
  fun h' => keyLt_irrefl a (keyLt_trans h h')

theorem keyLt_trichotomy (a b : ℚ × ℕ × ℕ) : keyLt a b ∨ a = b ∨ keyLt b a := by
  obtain ⟨a1, a2, a3⟩ := a
  obtain ⟨b1, b2, b3⟩ := b
  simp only [keyLt, Prod.mk.injEq]
  rcases lt_trichotomy a1 b1 with h1 | h1 | h1
  · exact Or.inl (Or.inl h1)
  · rcases lt_trichotomy a2 b2 with h2 | h2 | h2
    · exact Or.inl (Or.inr ⟨h1, Or.inl h2⟩)
    · rcases lt_trichotomy a3 b3 with h3 | h3 | h3
      · exact Or.inl (Or.inr ⟨h1, Or.inr ⟨h2, h3⟩⟩)
      · exact Or.inr (Or.inl ⟨h1, h2, h3⟩)
      · exact Or.inr (Or.inr (Or.inr ⟨h1.symm, Or.inr ⟨h2.symm, h3⟩⟩))
    · exact Or.inr (Or.inr (Or.inr ⟨h1.symm, Or.inl h2⟩))
  · exact Or.inr (Or.inr (Or.inl h1))

theorem keyLt_le_trans {a b c : ℚ × ℕ × ℕ} (hab : ¬ keyLt a b) (hbc : ¬ keyLt b c) :
    ¬ keyLt a c := by
  intro hac
  rcases keyLt_trichotomy a b with h | h | h
  · exact hab h
  · exact hbc (h ▸ hac)
  · exact hbc (keyLt_trans h hac)

/- ### The stable descending sort and its head -/

theorem insertDesc_ne_nil (key : Quote → ℚ × ℕ × ℕ) (x : Quote) (l : List Quote) :
    insertDesc key x l ≠ [] := by
  cases l with
  | nil => simp [insertDesc]
  | cons y ys =>
      rw [insertDesc]
      split <;> simp

theorem mem_insertDesc {key : Quote → ℚ × ℕ × ℕ} {x a : Quote} {l : List Quote} :
    a ∈ insertDesc key x l ↔ a = x ∨ a ∈ l := by
  induction l with
  | nil => simp [insertDesc]
  | cons y ys ih =>
      rw [insertDesc]
      split
      · simp only [List.mem_cons, ih]
        tauto
      · simp [List.mem_cons]

theorem mem_of_mem_sortDesc {key : Quote → ℚ × ℕ × ℕ} {a : Quote} {l : List Quote}
    (h : a ∈ sortDesc key l) : a ∈ l := by
  induction l with
  | nil => simp [sortDesc] at h
  | cons x xs ih =>
      rw [sortDesc] at h
      rcases mem_insertDesc.1 h with h' | h'
      · exact h' ▸ List.mem_cons_self x xs
      · exact List.mem_cons_of_mem x (ih h')

theorem sortDesc_eq_nil_iff {key : Quote → ℚ × ℕ × ℕ} {l : List Quote} :
    sortDesc key l = [] ↔ l = [] := by
  cases l with
  | nil => simp [sortDesc]
  | cons x xs =>
      rw [sortDesc]
      simp [insertDesc_ne_nil]

/-- The head of the stable descending sort is the first element of the input
attaining the (lexicographically) greatest key: it is a maximum, and every
strictly earlier element of the input has a strictly smaller key. -/
theorem sortDesc_head_first_argmax (key : Quote → ℚ × ℕ × ℕ) :
    ∀ (l : List Quote) (q : Quote), (sortDesc key l).head? = some q →
      ∃ i, i < l.length ∧ l.getD i emptyQuote = q ∧
        (∀ j, j < l.length → ¬ keyLt (key q) (key (l.getD j emptyQuote))) ∧
        (∀ j, j < i → keyLt (key (l.getD j emptyQuote)) (key q)) := by
  intro l
  induction l with
  | nil => intro q h; simp [sortDesc] at h
  | cons x xs ih =>
      intro q h
      rw [sortDesc] at h
      cases hs : sortDesc key xs with
      | nil =>
          have hxs : xs = [] := sortDesc_eq_nil_iff.1 hs
          subst hxs
          rw [hs] at h
          simp only [insertDesc, List.head?_cons, Option.some.injEq] at h
          subst h
          refine ⟨0, by simp, by simp, ?_, by omega⟩
          intro j hj
          simp only [List.length_cons, List.length_nil] at hj
          interval_cases j
          simpa using keyLt_irrefl (key x)
      | cons y ys =>
          have hy : (sortDesc key xs).head? = some y := by rw [hs]; rfl
          obtain ⟨i, hi, hgy, hmax, hstrict⟩ := ih y hy
          rw [hs, insertDesc] at h
          by_cases hlt : keyLt (key x) (key y)
          · rw [if_pos hlt] at h
            simp only [List.head?_cons, Option.some.injEq] at h
            subst h
            refine ⟨i + 1, by simpa using Nat.succ_lt_succ hi, by simpa using hgy, ?_, ?_⟩
            · intro j hj
              cases j with
              | zero =>
                  simpa using keyLt_asymm hlt
              | succ j' =>
                  simp only [List.getD_cons_succ]
                  exact hmax j' (by simpa using hj)
            · intro j hj
              cases j with
              | zero => simpa using hlt
              | succ j' =>
                  simp only [List.getD_cons_succ]
                  exact hstrict j' (by omega)
          · rw [if_neg hlt] at h
            simp only [List.head?_cons, Option.some.injEq] at h
            subst h
            refine ⟨0, by simp, by simp, ?_, by omega⟩
            intro j hj
            cases j with
            | zero => simpa using keyLt_irrefl (key x)
            | succ j' =>
                simp only [List.getD_cons_succ]
                exact keyLt_le_trans hlt (hmax j' (by simpa using hj))

/- ### Guard elimination for the score conditions -/

theorem guard_contains_pair (l : List Str) (a b : Str) :
    ((!l.isEmpty) && (l.contains a || l.contains b)) = (l.contains a || l.contains b) := by
  cases l <;> simp

theorem guard_any (l : List Str) (f : Str → Bool) :
    ((!l.isEmpty) && l.any f) = l.any f := by
  cases l <;> simp

/-- **C1** (amended).  The score computed by `pick_best_match`'s inner
`score` is the additive rubric of §4.3 with the corrected weights: `+5` for
an exchange match, `+3` for a region match, `+1` for a non-caret non-empty
symbol, `+1` for (upper-cased) quoteType `EQUITY`, `+1` — not `+0.5` — for
a present display name, and `+0.5` — not `+0.25` — for a present exchange
display string; this holds for every candidate and policy. -/
theorem C1_score_is_corrected_rubric (pe pr : List Str) (q : Quote) :
    (score pe pr q).1 = rubric_score pe pr q := by
  simp only [score, rubric_score, guard_contains_pair, guard_any]
  split_ifs <;> norm_num

/-- **C1** counterexample.  For the candidate with only a short display
name, the code's score is `1`, while the rubric claimed in the
specification (`+0.5` per present name) yields `0.5`. -/
theorem C1_counterexample :
    (score [] [] ⟨[], ['X'], [], [], [], []⟩).1 = 1 ∧
      claimed_rubric_score [] [] ⟨[], ['X'], [], [], [], []⟩ = 1/2 ∧
      (score [] [] ⟨[], ['X'], [], [], [], []⟩).1 ≠
        claimed_rubric_score [] [] ⟨[], ['X'], [], [], [], []⟩ := by
  refine ⟨?_, ?_, ?_⟩ <;>
    · norm_num [score, claimed_rubric_score, pyUpper, EQUITY_TAG]
      try rw [if_neg (by simp), if_neg (by simp)]
      try simp
      try norm_num

/-- **C9**.  A resolution call leaves both of its arguments unchanged: the
Python body of `pick_best_match` only builds fresh lists (`filter`
comprehension, `quotes[:]`, `sorted`), so the state-passing form hands back
the candidate list and the policy exactly as supplied. -/
theorem C9_frame_read_only (quotes : List Quote) (policy : MatchPolicy) :
    (pick_best_match_run quotes policy).2.1 = quotes ∧
      (pick_best_match_run quotes policy).2.2 = policy :=
  ⟨rfl, rfl⟩

/-- **C10**.  The legacy fail-open existence check returns `True` on every
path: for every outcome of the `yf.Ticker` construction, of the `get_info`
probe, of the history probe and of the `fast_info` probe — including every
exception — `cached_exists` yields `True`. -/
theorem C10_cached_exists_always_true (tickerRes : Except PyExc Unit)
    (getInfoRes : Except PyExc (Option InfoDict))
    (histRes : Except PyExc Bool) (fi : Option FastInfoProbe) :
    cached_exists tickerRes getInfoRes histRes fi = true := by
  unfold cached_exists
  repeat' split
  all_goals rfl

/-- **C6**.  A failed external lookup yields an empty result, never a
propagating exception: `yahoo_search` returns `[]` for every raised
exception and for every malformed payload (missing `"quotes"` key, JSON
null, empty list), and `cached_get_info` returns the empty metadata record
when `get_info` raises an `HTTPError` with a non-404 (or absent) code — the
one re-raised path, which the outer handler turns into `{}` — as well as
when every probe fails; in the embedding both functions are total, so no
exception can reach the row loop. -/
theorem C6_failures_yield_empty :
    (∀ e : PyExc, yahoo_search (.error e) = []) ∧
    yahoo_search (.ok none) = [] ∧
    yahoo_search (.ok (some none)) = [] ∧
    yahoo_search (.ok (some (some []))) = [] ∧
    (∀ (lg : Except PyExc (Option InfoDict)) (fi : Option FastRes)
        (hist : Except PyExc Bool) (c : Option ℤ), c ≠ some 404 →
        cached_get_info (.error (.http c)) lg fi hist = emptyMeta) ∧
    cached_get_info (.error (.http (some 404))) (.error .other) none (.error .other)
      = emptyMeta ∧
    cached_get_info (.error .other) (.ok none) none (.ok false) = emptyMeta := by
  refine ⟨fun e => rfl, rfl, rfl, rfl, ?_, by decide, by decide⟩
  intro lg fi hist c hc
  unfold cached_get_info
  simp only [getInfoStep]
  rw [if_neg hc]

/-- Witness for **C6**: the non-404 hypothesis discharged at code 500. -/
theorem C6_failures_yield_empty_witness :
    cached_get_info (.error (.http (some 500))) (.ok none) none (.ok false) = emptyMeta :=
  C6_failures_yield_empty.2.2.2.2.1 (.ok none) none (.ok false) (some 500) (by decide)

/-- **C5**.  The exchange mapper applies the §4.2 rules in order: a
(sanitized) symbol that already ends in a recognized foreign exchange
suffix is returned unchanged whatever the exchange hint says, and otherwise
the domestic class-share dot is rewritten to a dash — including the three
quoted instances. -/
theorem C5_mapper_rules :
    (∀ (sym : Str) (exchange : Option Str), sanitize_symbol sym = sym →
        endsWithAnyOf KNOWN_EX_SUFFIXES sym = true →
        map_to_yahoo_symbol sym exchange = sym) ∧
    map_to_yahoo_symbol "BRK.B".toList (some "NYSE".toList) = "BRK-B".toList ∧
    map_to_yahoo_symbol "BRK.B".toList none = "BRK-B".toList ∧
    map_to_yahoo_symbol "NESN.SW".toList none = "NESN.SW".toList := by
  refine ⟨?_, by decide, by decide, by decide⟩
  intro sym exchange hs he
  simp [map_to_yahoo_symbol, hs, he]

/-- Witness for **C5**: the suffix-preservation clause at `"SHOP.TO"` with a
conflicting US hint. -/
theorem C5_mapper_rules_witness :
    map_to_yahoo_symbol "SHOP.TO".toList (some "NYSE".toList) = "SHOP.TO".toList :=
  C5_mapper_rules.1 "SHOP.TO".toList (some "NYSE".toList) (by decide) (by decide)

/-- On a string of valid ticker characters that does not trip the synthetic
`X...` drop rule, `sanitize_symbol` is the identity. -/
theorem sanitize_fix {y : Str} (hv : ∀ c ∈ y, validChar c = true)
    (hX : ¬(y.head? = some 'X' ∧ endsWithAnyOf KNOWN_EX_SUFFIXES y = false ∧
        6 < y.length)) :
    sanitize_symbol y = y := by
  have hw : ∀ c ∈ y, isWsp c = false :=
    fun c hc => valid_not_wsp c (valid_mem_of_validChar (hv c hc))
  have h1 : pyUpper (pyStrip y) = y := by rw [pyStrip_eq_self hw, pyUpper_eq_self hv]
  have h2 : y.head? ≠ some '$' := by
    cases hy : y with
    | nil => simp
    | cons c t =>
        intro hc
        have hc' : c = '$' := by simpa using hc
        subst hc'
        exact absurd (hv '$' (by rw [hy]; exact List.mem_cons_self _ _)) (by decide)
  simp only [sanitize_symbol, h1]
  rw [if_neg h2]
  by_cases hx : y.head? = some 'X' ∧ endsWithAnyOf KNOWN_EX_SUFFIXES y = false
  · rw [if_pos hx, if_neg (fun hl => hX ⟨hx.1, hx.2, hl⟩), filter_valid_eq_self hv]
  · rw [if_neg hx, filter_valid_eq_self hv]

/-- **C4** (amended).  The sanitizer is idempotent on every input whose
sanitized form does not itself trip the synthetic-`X` drop rule (first
character `X`, no recognized exchange suffix, length above 6); the
counterexample shows idempotence fails exactly there. -/
theorem C4_amended_idempotence (raw : Str)
    (h : ¬((sanitize_symbol raw).head? = some 'X' ∧
        endsWithAnyOf KNOWN_EX_SUFFIXES (sanitize_symbol raw) = false ∧
        6 < (sanitize_symbol raw).length)) :
    sanitize_symbol (sanitize_symbol raw) = sanitize_symbol raw :=
  sanitize_fix (sanitize_all_valid raw) h

/-- Witness for **C4** (amended) at `"BRK.B"`. -/
theorem C4_amended_idempotence_witness :
    sanitize_symbol (sanitize_symbol "BRK.B".toList) = sanitize_symbol "BRK.B".toList :=
  C4_amended_idempotence "BRK.B".toList (by decide)

/-- **C4** counterexample.  `sanitize("!XABCDEFG") = "XABCDEFG"` (the `!` is
filtered after the `X`-heuristic ran on a string not starting with `X`),
but a second application sees a 8-character `X...` token and drops it:
sanitize is not idempotent. -/
theorem C4_counterexample :
    sanitize_symbol (sanitize_symbol "!XABCDEFG".toList) ≠
      sanitize_symbol "!XABCDEFG".toList := by decide

/-- **C3**.  On a non-empty candidate list `pick_best_match` always returns
some candidate of the list, for every policy: if the type filter empties
the list the scorer falls back to the unfiltered list, so only empty input
reaches the `None` branch. -/
theorem C3_nonempty_gives_match (quotes : List Quote) (pe pr allowT : List Str)
    (h : quotes ≠ []) :
    ∃ q, pick_best_match quotes pe pr allowT = some q ∧ q ∈ quotes := by
  have h0 : ¬(quotes.isEmpty = true) := by simpa using h
  have heff : effectiveCandidates quotes allowT ≠ [] := by
    simp only [effectiveCandidates]
    split
    · exact h
    · rename_i hf
      simpa using hf
  have hsub : ∀ a, a ∈ effectiveCandidates quotes allowT → a ∈ quotes := by
    intro a ha
    simp only [effectiveCandidates] at ha
    split at ha
    · exact ha
    · exact (List.mem_filter.1 ha).1
  have hsort : sortDesc (fun q => pyKey (score pe pr q))
      (effectiveCandidates quotes allowT) ≠ [] :=
    fun hnil => heff (sortDesc_eq_nil_iff.1 hnil)
  unfold pick_best_match
  rw [if_neg h0]
  cases hhead : (sortDesc (fun q => pyKey (score pe pr q))
      (effectiveCandidates quotes allowT)).head? with
  | none => exact absurd (List.head?_eq_none_iff.1 hhead) hsort
  | some q =>
      have hmem : q ∈ sortDesc (fun p => pyKey (score pe pr p))
          (effectiveCandidates quotes allowT) := by
        cases hl : sortDesc (fun p => pyKey (score pe pr p))
            (effectiveCandidates quotes allowT) with
        | nil => exact absurd hl hsort
        | cons a t =>
            rw [hl] at hhead
            simp only [List.head?_cons, Option.some.injEq] at hhead
            rw [← hhead]
            exact List.mem_cons_self a t
      exact ⟨q, rfl, hsub q (mem_of_mem_sortDesc hmem)⟩

/-- Witness for **C3** on a one-candidate list. -/
theorem C3_nonempty_gives_match_witness :
    ∃ q, pick_best_match [emptyQuote] [] [] [] = some q ∧ q ∈ [emptyQuote] :=
  C3_nonempty_gives_match [emptyQuote] [] [] [] (by decide)

/-- **C2** (amended).  The selected candidate is the first element of the
effective (type-filtered, with fallback) list attaining the maximal Python
sort key `(score, exchange_ok, region_ok)`: ties in the full key go to the
earlier candidate, but candidates that tie on the numeric score alone are
separated first by the exchange-match flag and then by the region-match
flag, and only then by list order. -/
theorem C2_amended_positional_tiebreak (quotes : List Quote)
    (pe pr allowT : List Str) (q : Quote)
    (h : pick_best_match quotes pe pr allowT = some q) :
    ∃ i, i < (effectiveCandidates quotes allowT).length ∧
      (effectiveCandidates quotes allowT).getD i emptyQuote = q ∧
      (∀ j, j < (effectiveCandidates quotes allowT).length →
        ¬ keyLt (pyKey (score pe pr q))
          (pyKey (score pe pr ((effectiveCandidates quotes allowT).getD j emptyQuote)))) ∧
      (∀ j, j < i →
        keyLt (pyKey (score pe pr ((effectiveCandidates quotes allowT).getD j emptyQuote)))
          (pyKey (score pe pr q))) := by
  unfold pick_best_match at h
  by_cases h0 : quotes.isEmpty
  · rw [if_pos h0] at h
    exact absurd h (by simp)
  · rw [if_neg h0] at h
    exact sortDesc_head_first_argmax (fun p => pyKey (score pe pr p))
      (effectiveCandidates quotes allowT) q h

/- ### Closed-term `Char.toUpper` evaluations used by concrete score runs -/

theorem upperA : 'A'.toUpper = 'A' := by decide
theorem upperE : 'E'.toUpper = 'E' := by decide
theorem upperF : 'F'.toUpper = 'F' := by decide
theorem upperI : 'I'.toUpper = 'I' := by decide
theorem upperN : 'N'.toUpper = 'N' := by decide
theorem upperQ : 'Q'.toUpper = 'Q' := by decide
theorem upperS : 'S'.toUpper = 'S' := by decide
theorem upperT : 'T'.toUpper = 'T' := by decide
theorem upperU : 'U'.toUpper = 'U' := by decide
theorem upperY : 'Y'.toUpper = 'Y' := by decide
theorem caret_ne_A : ('^' : Char) ≠ 'A' := by decide

/-- **C2** counterexample.  With `preferredExchanges = {NYSE}` and
`preferredRegions = {US}`, the first candidate (region match + symbol +
EQUITY, score 5) and the second (exchange match alone, score 5) tie on the
numeric score, yet `pick_best_match` returns the *second*: the hidden
`exchange_ok` flag in the sort key outranks list order, refuting the claim
that ties in the total score are broken by list position alone. -/
theorem C2_counterexample :
    (score ["NYSE".toList] ["US".toList]
        ⟨"AAA".toList, [], [], [], "US".toList, "EQUITY".toList⟩).1 =
      (score ["NYSE".toList] ["US".toList]
        ⟨[], [], [], [], "NYSE".toList, "ETF".toList⟩).1 ∧
    (⟨"AAA".toList, [], [], [], "US".toList, "EQUITY".toList⟩ : Quote) ≠
      ⟨[], [], [], [], "NYSE".toList, "ETF".toList⟩ ∧
    pick_best_match
      [⟨"AAA".toList, [], [], [], "US".toList, "EQUITY".toList⟩,
       ⟨[], [], [], [], "NYSE".toList, "ETF".toList⟩]
      ["NYSE".toList] ["US".toList] DEFAULT_ALLOW_TYPES =
      some ⟨[], [], [], [], "NYSE".toList, "ETF".toList⟩ := by
  have hA : score ["NYSE".toList] ["US".toList]
      ⟨"AAA".toList, [], [], [], "US".toList, "EQUITY".toList⟩ = (5, false, true) := by
    norm_num [score, pyUpper, EQUITY_TAG, containsSub, takesLead,
      upperA, upperE, upperF, upperI, upperN, upperQ, upperS, upperT, upperU, upperY,
      caret_ne_A]
    refine ⟨?_, by decide⟩
    repeat rw [if_neg (by decide)]
    try norm_num
  have hB : score ["NYSE".toList] ["US".toList]
      ⟨[], [], [], [], "NYSE".toList, "ETF".toList⟩ = (5, true, false) := by
    norm_num [score, pyUpper, EQUITY_TAG, containsSub, takesLead,
      upperA, upperE, upperF, upperI, upperN, upperQ, upperS, upperT, upperU, upperY,
      caret_ne_A]
    refine ⟨?_, by decide⟩
    repeat rw [if_neg (by decide)]
    try norm_num
  have hkey : keyLt
      (pyKey (score ["NYSE".toList] ["US".toList]
        ⟨"AAA".toList, [], [], [], "US".toList, "EQUITY".toList⟩))
      (pyKey (score ["NYSE".toList] ["US".toList]
        ⟨[], [], [], [], "NYSE".toList, "ETF".toList⟩)) := by
    rw [hA, hB]
    norm_num [keyLt, pyKey]
  refine ⟨by rw [hA, hB], by decide, ?_⟩
  have heff : effectiveCandidates
      [⟨"AAA".toList, [], [], [], "US".toList, "EQUITY".toList⟩,
       ⟨[], [], [], [], "NYSE".toList, "ETF".toList⟩] DEFAULT_ALLOW_TYPES =
      [⟨"AAA".toList, [], [], [], "US".toList, "EQUITY".toList⟩,
       ⟨[], [], [], [], "NYSE".toList, "ETF".toList⟩] := by decide
  unfold pick_best_match
  rw [if_neg (by decide), heff, sortDesc, sortDesc, sortDesc, insertDesc, insertDesc,
    if_pos hkey]
  rfl

/-- Witness for **C2** (amended) on a one-candidate list, where the
selection hypothesis holds definitionally. -/
theorem C2_amended_positional_tiebreak_witness :
    ∃ i, i < (effectiveCandidates [emptyQuote] []).length ∧
      (effectiveCandidates [emptyQuote] []).getD i emptyQuote = emptyQuote ∧
      (∀ j, j < (effectiveCandidates [emptyQuote] []).length →
        ¬ keyLt (pyKey (score [] [] emptyQuote))
          (pyKey (score [] [] ((effectiveCandidates [emptyQuote] []).getD j emptyQuote)))) ∧
      (∀ j, j < i →
        keyLt (pyKey (score [] [] ((effectiveCandidates [emptyQuote] []).getD j emptyQuote)))
          (pyKey (score [] [] emptyQuote))) :=
  C2_amended_positional_tiebreak [emptyQuote] [] [] [] emptyQuote rfl

/-- **C7**.  The reported per-row confidence is exactly `0.85` when the
selected candidate's quoteType upper-cases to `EQUITY`, exactly `0.75` for
any other selected candidate, and exactly `0.0` when the query cell is
empty or no candidate was selected. -/
theorem C7_confidence_tiers (cell : Option Str) (quotes : List Quote)
    (pe pr allowT : List Str) :
    (safe_str cell = [] → (process_row cell quotes pe pr allowT).conf = 0) ∧
    (pick_best_match quotes pe pr allowT = none →
      (process_row cell quotes pe pr allowT).conf = 0) ∧
    (∀ m, safe_str cell ≠ [] → pick_best_match quotes pe pr allowT = some m →
      (process_row cell quotes pe pr allowT).conf =
        if pyUpper m.quoteType = EQUITY_TAG then 85/100 else 75/100) := by
  refine ⟨?_, ?_, ?_⟩
  · intro h
    simp [process_row, h]
  · intro h
    by_cases h0 : (safe_str cell).isEmpty
    · simp [process_row, h0]
    · simp [process_row, h0, h]
  · intro m hne hm
    have h0 : (safe_str cell).isEmpty = false := by simpa using hne
    simp [process_row, h0, hm]

/-- Witness for **C7**: a non-empty query whose single candidate is
selected definitionally. -/
theorem C7_confidence_tiers_witness :
    (process_row (some "Apple".toList) [emptyQuote] [] [] []).conf =
      if pyUpper emptyQuote.quoteType = EQUITY_TAG then 85/100 else 75/100 :=
  (C7_confidence_tiers (some "Apple".toList) [emptyQuote] [] [] []).2.2 emptyQuote
    (by decide) rfl

/-- Flattening the chunked pages recovers a prefix of the frame. -/
theorem flatten_chunks {α : Type} (df : List α) (ps : ℕ) :
    ∀ k, ((List.range k).map (fun p => (df.drop (p * ps)).take ps)).flatten
      = df.take (k * ps) := by
  intro k
  induction k with
  | zero => simp
  | succ k ih =>
      rw [List.range_succ, List.map_append, List.join_append, ih]
      simp only [List.map_cons, List.map_nil]
      rw [show (k + 1) * ps = k * ps + ps by ring, List.take_add]
      simp

/-- **C8** (amended).  When the row count exceeds the page size, the export
splits the frame in row order into `ceil(n / page_size)` (at least two)
sheets whose concatenation is the original frame; every sheet except the
last holds exactly `page_size` rows, and the last holds between `1` and
`page_size` rows (so the sheets are *not* all equally sized unless
`page_size` divides the row count); `to_excel_bytes_multi` cuts the same
pages. -/
theorem C8_amended_paging {α : Type} (df : List α) (ps : ℕ)
    (hps : 0 < ps) (hgt : ps < df.length) :
    (write_df_paged df ps).flatten = df ∧
    2 ≤ (write_df_paged df ps).length ∧
    (∀ i, i + 1 < (write_df_paged df ps).length →
      ((write_df_paged df ps).getD i []).length = ps) ∧
    1 ≤ ((write_df_paged df ps).getD ((write_df_paged df ps).length - 1) []).length ∧
    ((write_df_paged df ps).getD ((write_df_paged df ps).length - 1) []).length ≤ ps ∧
    to_excel_bytes_multi df ps = write_df_paged df ps := by
  have hn0 : df.length ≠ 0 := by omega
  have hw : write_df_paged df ps =
      (List.range ((df.length + ps - 1) / ps)).map
        (fun p => (df.drop (p * ps)).take ps) := by
    simp [write_df_paged, hn0]
  have hq : (df.length + ps - 1) / ps = (df.length - 1) / ps + 1 := by
    rw [show df.length + ps - 1 = (df.length - 1) + ps by omega,
      Nat.add_div_right _ hps]
  have hmul : ∀ j : ℕ, j ≤ (df.length - 1) / ps → j * ps ≤ df.length - 1 := by
    intro j hj
    have h1 : j * ps ≤ (df.length - 1) / ps * ps := Nat.mul_le_mul_right ps hj
    have h2 : (df.length - 1) / ps * ps ≤ df.length - 1 := by
      obtain ⟨t, ht⟩ : ∃ t, ps * ((df.length - 1) / ps) = t := ⟨_, rfl⟩
      have hdm := Nat.div_add_mod (df.length - 1) ps
      rw [ht] at hdm
      rw [show (df.length - 1) / ps * ps = ps * ((df.length - 1) / ps) by ring, ht]
      omega
    omega
  have hQ1 : 1 ≤ (df.length - 1) / ps := (Nat.one_le_div_iff hps).2 (by omega)
  have hlen : (write_df_paged df ps).length = (df.length + ps - 1) / ps := by
    rw [hw]
    simp
  have hget : ∀ i, i < (df.length + ps - 1) / ps →
      (write_df_paged df ps).getD i [] = (df.drop (i * ps)).take ps := by
    intro i hi
    rw [hw, List.getD_eq_get?, List.get?_map, List.get?_range hi]
    rfl
  have hnle : df.length ≤ ((df.length - 1) / ps + 1) * ps := by
    obtain ⟨t, ht⟩ : ∃ t, ps * ((df.length - 1) / ps) = t := ⟨_, rfl⟩
    have hdm := Nat.div_add_mod (df.length - 1) ps
    have hmlt : (df.length - 1) % ps < ps := Nat.mod_lt _ hps
    rw [ht] at hdm
    rw [show ((df.length - 1) / ps + 1) * ps = ps * ((df.length - 1) / ps) + ps by ring,
      ht]
    omega
  refine ⟨?_, ?_, ?_, ?_, ?_, ?_⟩
  · rw [hw, flatten_chunks]
    exact List.take_of_length_le (by rw [hq]; exact hnle)
  · rw [hlen, hq]
    omega
  · intro i hi
    rw [hlen, hq] at hi
    rw [hget i (by rw [hq]; omega), List.length_take, List.length_drop]
    have h4 := hmul (i + 1) (by omega)
    rw [show (i + 1) * ps = i * ps + ps by ring] at h4
    omega
  · rw [hlen, hq, Nat.add_sub_cancel,
      hget ((df.length - 1) / ps) (by rw [hq]; omega),
      List.length_take, List.length_drop]
    have h4 := hmul ((df.length - 1) / ps) le_rfl
    omega
  · rw [hlen, hq, Nat.add_sub_cancel,
      hget ((df.length - 1) / ps) (by rw [hq]; omega),
      List.length_take, List.length_drop]
    omega
  · rw [hw]
    simp only [to_excel_bytes_multi]
    rw [if_neg (by omega)]

/-- **C8** counterexample.  Three rows with page size two exceed the page
size, but the two sheets produced hold 2 and 1 rows — the pages are not
equally sized. -/
theorem C8_counterexample :
    write_df_paged [0, 1, 2] 2 = [[0, 1], [2]] ∧
    2 < ([0, 1, 2] : List ℕ).length ∧
    ¬ (∀ page ∈ write_df_paged ([0, 1, 2] : List ℕ) 2, page.length = 2) := by decide

/-- Witness for **C8** (amended) at three rows and page size two. -/
theorem C8_amended_paging_witness :
    (write_df_paged [0, 1, 2] 2).flatten = ([0, 1, 2] : List ℕ) ∧
    2 ≤ (write_df_paged ([0, 1, 2] : List ℕ) 2).length ∧
    (∀ i, i + 1 < (write_df_paged ([0, 1, 2] : List ℕ) 2).length →
      ((write_df_paged ([0, 1, 2] : List ℕ) 2).getD i []).length = 2) ∧
    1 ≤ ((write_df_paged ([0, 1, 2] : List ℕ) 2).getD
      ((write_df_paged ([0, 1, 2] : List ℕ) 2).length - 1) []).length ∧
    ((write_df_paged ([0, 1, 2] : List ℕ) 2).getD
      ((write_df_paged ([0, 1, 2] : List ℕ) 2).length - 1) []).length ≤ 2 ∧
    to_excel_bytes_multi ([0, 1, 2] : List ℕ) 2 = write_df_paged ([0, 1, 2] : List ℕ) 2 :=
  C8_amended_paging [0, 1, 2] 2 (by decide) (by decide)
